import Mathlib

/-!
Verification of the AULD-NETWORK-CLI command registry and modal shell.

Shallow embedding of `src/auld_network_cli/commands.py`,
`src/auld_network_cli/custom_types.py` and `src/auld_network_cli/handlers.py`:
the `Mode` enum, the `Command` dataclass (including its `__post_init__`
validation), the `CommandRegistry` with `register`, `_candidates_for_prefix`
and `resolve`, and the mode-transition handlers `h_configure` / `h_exit`
together with the sorted listing performed by `h_help`.

Python exceptions are modelled as explicit error values (`Except` /
`Option`); the registry's per-mode dict becomes a two-field structure;
Python tuples of strings become `List String`.
-/

deriving instance DecidableEq for Except

/-- The `Mode` enum from `custom_types.py`: user mode and admin
(privileged) mode. -/
inductive Mode where
  | USER
  | ADMIN
deriving DecidableEq, Repr

/-- Python renders an enum member as `Mode.USER` / `Mode.ADMIN` inside
f-strings; used by the duplicate-registration message. -/
def Mode.pyStr : Mode → String
  | Mode.USER => "Mode.USER"
  | Mode.ADMIN => "Mode.ADMIN"

/-- The `Command` dataclass (`commands.py` lines 14-34) after
`__post_init__` has normalised `tokens` to a tuple of strings.  The
`handler` callable is inert data for the registry (it is never invoked by
`register` or `resolve`), so it is modelled by an abstract numeric
reference. -/
structure Command where
  tokens : List String
  mode : Mode
  handler : Nat
  short_description : String := "(no help given)"
deriving DecidableEq, Repr

/-- The `tokens` argument accepted by the `Command` constructor:
`Tuple[str, ...] | str`. -/
inductive TokensArg where
  | ofTuple (ts : List String)
  | ofString (s : String)
deriving DecidableEq, Repr

/-- Helper for `pySplit`: walks the character list, accumulating the
current word (reversed); whitespace flushes the accumulator, and empty
words are never produced. -/
def pySplitAux : List Char → List Char → List String
  | [], acc => if acc = [] then [] else [String.mk acc.reverse]
  | ch :: rest, acc =>
    if ch.isWhitespace then
      if acc = [] then pySplitAux rest []
      else String.mk acc.reverse :: pySplitAux rest []
    else pySplitAux rest (ch :: acc)

/-- Python's `str.split()` with no separator: split on runs of whitespace,
discarding empty fields. -/
def pySplit (s : String) : List String := pySplitAux s.data []

/-- `Command.__post_init__` (`commands.py` lines 25-34): an empty tuple or
the empty string is rejected; any other string is split on whitespace; any
other tuple is kept as is.  Returns the constructed `Command` or the
`ValueError` message. -/
def mkCommand (arg : TokensArg) (mode : Mode) (hdl : Nat) (descr : String) :
    Except String Command :=
  match arg with
  | TokensArg.ofTuple [] => Except.error "This command must have at least one token"
  | TokensArg.ofString "" => Except.error "This command must have at least one token"
  | TokensArg.ofString s =>
      Except.ok { tokens := pySplit s, mode := mode, handler := hdl,
                  short_description := descr }
  | TokensArg.ofTuple ts =>
      Except.ok { tokens := ts, mode := mode, handler := hdl,
                  short_description := descr }

/-- Python's `commandToken.startswith(inputToken)`: code-point list
prefix test (case sensitive). -/
def startswith (s t : String) : Bool := t.data.isPrefixOf s.data

/-- The inner loop of `_candidates_for_prefix` (`commands.py` lines
68-74): the input token list positionally matches the command token list
when the input is no longer than the command and each input token is a
`startswith`-prefix of the corresponding command token. -/
def tokMatch : List String → List String → Bool
  | [], _ => true
  | _ :: _, [] => false
  | t :: ts, ct :: cts => startswith ct t && tokMatch ts cts

/-- `" ".join(tokens)`. -/
def joinTokens (ts : List String) : String := String.intercalate " " ts

/-- The `CommandRegistry._by_mode` dict: one ordered command list per
mode. -/
structure CommandRegistry where
  user_cmds : List Command
  admin_cmds : List Command
deriving DecidableEq, Repr

/-- `self._by_mode[mode]`. -/
def CommandRegistry.byMode (r : CommandRegistry) : Mode → List Command
  | Mode.USER => r.user_cmds
  | Mode.ADMIN => r.admin_cmds

/-- Replace the command list of one mode, leaving the other unchanged. -/
def CommandRegistry.setMode (r : CommandRegistry) : Mode → List Command → CommandRegistry
  | Mode.USER, l => { r with user_cmds := l }
  | Mode.ADMIN, l => { r with admin_cmds := l }

/-- `CommandRegistry.register` (`commands.py` lines 53-60): raising
`ValueError` is modelled by returning the unchanged registry paired with
the message; success appends to the mode's list and returns `none`. -/
def CommandRegistry.register (r : CommandRegistry) (cmd : Command) :
    CommandRegistry × Option String :=
  if (r.byMode cmd.mode).any (fun c => c.tokens == cmd.tokens) then
    (r, some ("duplicate command in mode " ++ cmd.mode.pyStr ++ ": " ++
              joinTokens cmd.tokens))
  else
    (r.setMode cmd.mode (r.byMode cmd.mode ++ [cmd]), none)

/-- `CommandRegistry._candidates_for_prefix` (`commands.py` lines 62-77):
the commands of `mode` whose tokens positionally extend the input
tokens. -/
def CommandRegistry.candidates (r : CommandRegistry) (mode : Mode)
    (input : List String) : List Command :=
  (r.byMode mode).filter (fun c => tokMatch input c.tokens)

/-- The `full_matches` list of `resolve` (`commands.py` line 85):
candidates whose token count equals the input token count. -/
def CommandRegistry.fullMatches (r : CommandRegistry) (mode : Mode)
    (input : List String) : List Command :=
  (r.candidates mode input).filter (fun m => input.length == m.tokens.length)

/-- The distinct failure outcomes of `resolve`, one per `raise` site
(`commands.py` lines 81-95), carrying the data interpolated into the
message. -/
inductive ResolveError where
  | emptyInput
  | unknownCommand (input : String)
  | incompleteCommand (alts : List String)
  | ambiguousCommand (alts : List String)
deriving DecidableEq, Repr

/-- The exact message text of each `ValueError` raised by `resolve`. -/
def ResolveError.message : ResolveError → String
  | ResolveError.emptyInput => "empty input"
  | ResolveError.unknownCommand input =>
      "unknown command: \"" ++ input ++ "\""
  | ResolveError.incompleteCommand alts =>
      "incomplete command. did you mean: " ++ String.intercalate ", " alts
  | ResolveError.ambiguousCommand alts =>
      "ambiguous command: " ++ String.intercalate ", " alts

/-- `" ".join(m.tokens) for m in cmds[:10]`: the alternatives enumerated
by the incomplete/ambiguous diagnostics, in list order, capped at 10. -/
def listAlts (cmds : List Command) : List String :=
  (cmds.take 10).map (fun m => joinTokens m.tokens)

/-- `CommandRegistry.resolve` (`commands.py` lines 79-96). -/
def CommandRegistry.resolve (r : CommandRegistry) (mode : Mode)
    (input : List String) : Except ResolveError Command :=
  match input with
  | [] => Except.error ResolveError.emptyInput
  | _ :: _ =>
    match r.fullMatches mode input with
    | [] =>
        if r.candidates mode input = [] then
          Except.error (ResolveError.unknownCommand (joinTokens input))
        else
          Except.error (ResolveError.incompleteCommand
            (listAlts (r.candidates mode input)))
    | [m] => Except.ok m
    | m1 :: m2 :: rest =>
        Except.error (ResolveError.ambiguousCommand
          (listAlts (m1 :: m2 :: rest)))

/-- A candidate that is a full match: equal token count and positional
`startswith` at every position. -/
def isFull (input : List String) (c : Command) : Bool :=
  (input.length == c.tokens.length) && tokMatch input c.tokens

/-- Modelled from the spec: `shell.py` is absent from the sources; §3 of
the design describes the Session ("Shell") as owning the current mode
(initially user mode) and a shared reference to the registry, which is
exactly the state the handlers in `handlers.py` read and mutate. -/
structure Shell where
  mode : Mode
  registry : CommandRegistry
deriving DecidableEq, Repr

/-- `h_configure` (`handlers.py` lines 13-19): set the shell's mode to
admin and return 0. -/
def h_configure (shell : Shell) : Shell × Int :=
  ({ shell with mode := Mode.ADMIN }, 0)

/-- `h_exit` (`handlers.py` lines 22-39): from admin mode return to user
mode with result 0; from user mode raise `SystemExit`, modelled as the
`Except.error` case. -/
def h_exit (shell : Shell) : Except Unit (Shell × Int) :=
  match shell.mode with
  | Mode.ADMIN => Except.ok ({ shell with mode := Mode.USER }, 0)
  | Mode.USER => Except.error ()

/-- Python string comparison on code points, on the character lists. -/
def charListLT : List Char → List Char → Bool
  | [], [] => false
  | [], _ :: _ => true
  | _ :: _, [] => false
  | a :: as, b :: bs =>
      if a < b then true else if b < a then false else charListLT as bs

/-- Python `str` `<`. -/
def strLT (a b : String) : Bool := charListLT a.data b.data

/-- Python tuple-of-strings `<=`, the order `sorted(..., key=lambda c:
c.tokens)` sorts by in `h_help`. -/
def lexLE : List String → List String → Bool
  | [], _ => true
  | _ :: _, [] => false
  | a :: as, b :: bs =>
      if strLT a b then true else if strLT b a then false else lexLE as bs

/-- The listing produced by `h_help` (`handlers.py` line 56):
`sorted(commands, key=lambda c: c.tokens)` over the current mode's
commands, modelled with the stable `mergeSort`. -/
def helpList (shell : Shell) : List Command :=
  (shell.registry.byMode shell.mode).mergeSort
    (fun a b => lexLE a.tokens b.tokens)

-- Concrete fixtures used by witnesses and counterexamples.

/-- The command `("show", "version")` in user mode. -/
def cShowVersion : Command :=
  { tokens := ["show", "version"], mode := Mode.USER, handler := 0 }

/-- A registry holding only `cShowVersion` in user mode. -/
def regShowVersion : CommandRegistry :=
  { user_cmds := [cShowVersion], admin_cmds := [] }

/-- The command `("show",)` in user mode. -/
def cShow : Command := { tokens := ["show"], mode := Mode.USER, handler := 1 }

/-- The command `("shutdown",)` in user mode. -/
def cShutdown : Command :=
  { tokens := ["shutdown"], mode := Mode.USER, handler := 2 }

/-- The command `("showx",)` in user mode. -/
def cShowx : Command := { tokens := ["showx"], mode := Mode.USER, handler := 3 }

/-- Registry with `("show",)` and `("shutdown",)` in user mode. -/
def regShSh : CommandRegistry :=
  { user_cmds := [cShow, cShutdown], admin_cmds := [] }

/-- Registry with `("show",)` and `("showx",)` in user mode. -/
def regShowShowx : CommandRegistry :=
  { user_cmds := [cShow, cShowx], admin_cmds := [] }

/-- Registry with `("sb",)` registered before `("sa",)` in user mode:
registration order is the reverse of lexicographic order. -/
def regBA : CommandRegistry :=
  { user_cmds := [{ tokens := ["sb"], mode := Mode.USER, handler := 4 },
                  { tokens := ["sa"], mode := Mode.USER, handler := 5 }],
    admin_cmds := [] }


/-- The empty registry. -/
def emptyReg : CommandRegistry := { user_cmds := [], admin_cmds := [] }

/-- The command `("exit",)` in user mode (`handlers.py` line 23). -/
def cExitUser : Command := { tokens := ["exit"], mode := Mode.USER, handler := 6 }

/-- The command `("exit",)` in admin mode (`handlers.py` line 22). -/
def cExitAdmin : Command := { tokens := ["exit"], mode := Mode.ADMIN, handler := 7 }

-- Helper lemmas: the lexicographic order used by the sorted listing.

/-- `charListLT` is transitive (Python string `<` on code points). -/
theorem charListLT_trans : ∀ as bs cs : List Char,
    charListLT as bs = true → charListLT bs cs = true → charListLT as cs = true := by
  intro as
  induction as with
  | nil =>
    intro bs cs h1 h2
    cases bs with
    | nil => simp [charListLT] at h1
    | cons b bs' =>
      cases cs with
      | nil => simp [charListLT] at h2
      | cons c cs' => simp [charListLT]
  | cons a as' ih =>
    intro bs cs h1 h2
    cases bs with
    | nil => simp [charListLT] at h1
    | cons b bs' =>
      cases cs with
      | nil => simp [charListLT] at h2
      | cons c cs' =>
        simp only [charListLT] at h1 h2 ⊢
        by_cases hab : a < b
        · by_cases hbc : b < c
          · simp [lt_trans hab hbc]
          · by_cases hcb : c < b
            · simp [hab, hbc, hcb] at h2
            · have hbc' : b = c := le_antisymm (not_lt.mp hcb) (not_lt.mp hbc)
              subst hbc'
              simp [hab]
        · by_cases hba : b < a
          · simp [hab, hba] at h1
          · have hba' : a = b := le_antisymm (not_lt.mp hba) (not_lt.mp hab)
            subst hba'
            simp only [lt_irrefl, if_false] at h1
            by_cases hac : a < c
            · simp [hac]
            · by_cases hca : c < a
              · simp [hac, hca] at h2
              · simp [hac, hca] at h2 ⊢
                exact ih bs' cs' h1 h2

/-- Two character lists neither of which is `<` the other are equal. -/
theorem charListLT_eq_of_not : ∀ as bs : List Char,
    charListLT as bs = false → charListLT bs as = false → as = bs := by
  intro as
  induction as with
  | nil =>
    intro bs h1 _
    cases bs with
    | nil => rfl
    | cons b bs' => simp [charListLT] at h1
  | cons a as' ih =>
    intro bs h1 h2
    cases bs with
    | nil => simp [charListLT] at h2
    | cons b bs' =>
      simp only [charListLT] at h1 h2
      by_cases hab : a < b
      · simp [hab] at h1
      · by_cases hba : b < a
        · simp [hba] at h2
        · have hba' : a = b := le_antisymm (not_lt.mp hba) (not_lt.mp hab)
          subst hba'
          simp only [lt_irrefl, if_false] at h1 h2
          rw [ih bs' h1 h2]

/-- A `String` is determined by its character list. -/
theorem str_data_inj {a b : String} (h : a.data = b.data) : a = b :=
  congrArg String.mk h

/-- Two strings neither of which is `<` the other are equal. -/
theorem strLT_eq_of_not {a b : String} (h1 : strLT a b = false)
    (h2 : strLT b a = false) : a = b :=
  str_data_inj (charListLT_eq_of_not a.data b.data h1 h2)

/-- `lexLE` (Python tuple-of-strings `<=`) is transitive. -/
theorem lexLE_trans : ∀ x y z : List String,
    lexLE x y = true → lexLE y z = true → lexLE x z = true := by
  intro x
  induction x with
  | nil => intro y z _ _; rfl
  | cons a as ih =>
    intro y z h1 h2
    cases y with
    | nil => simp [lexLE] at h1
    | cons b bs =>
      cases z with
      | nil => simp [lexLE] at h2
      | cons c cs =>
        simp only [lexLE] at h1 h2 ⊢
        by_cases hab : strLT a b = true
        · by_cases hbc : strLT b c = true
          · have hac : strLT a c = true := charListLT_trans _ _ _ hab hbc
            simp [hac]
          · by_cases hcb : strLT c b = true
            · simp [hbc, hcb] at h2
            · have : b = c := strLT_eq_of_not (Bool.eq_false_iff.mpr hbc)
                (Bool.eq_false_iff.mpr hcb)
              subst this
              simp [hab]
        · by_cases hba : strLT b a = true
          · simp [hab, hba] at h1
          · have : a = b := strLT_eq_of_not (Bool.eq_false_iff.mpr hab)
              (Bool.eq_false_iff.mpr hba)
            subst this
            simp [hab] at h1
            by_cases hac : strLT a c = true
            · simp [hac]
            · by_cases hca : strLT c a = true
              · simp [hac, hca] at h2
              · simp [hac, hca] at h2 ⊢
                exact ih bs cs h1 h2

/-- `lexLE` is total. -/
theorem lexLE_total : ∀ x y : List String, (lexLE x y || lexLE y x) = true := by
  intro x
  induction x with
  | nil => intro y; simp [lexLE]
  | cons a as ih =>
    intro y
    cases y with
    | nil => simp [lexLE]
    | cons b bs =>
      simp only [lexLE]
      by_cases hab : strLT a b = true
      · simp [hab]
      · by_cases hba : strLT b a = true
        · simp [hba]
        · simp [hab, hba]
          exact Bool.or_eq_true_iff.mp (ih bs)

/-- The listing of `h_help` is sorted by token sequence. -/
theorem helpList_pairwise (shell : Shell) :
    List.Pairwise (fun a b : Command => lexLE a.tokens b.tokens = true)
      (helpList shell) :=
  @List.sorted_mergeSort Command (fun a b : Command => lexLE a.tokens b.tokens)
    (fun a b c hab hbc => lexLE_trans a.tokens b.tokens c.tokens hab hbc)
    (fun a b => lexLE_total a.tokens b.tokens)
    (shell.registry.byMode shell.mode)

-- Helper lemmas: characterizing `resolve`.

/-- A character list is a prefix of itself. -/
theorem isPre_refl : ∀ l : List Char, l.isPrefixOf l = true := by
  intro l
  induction l with
  | nil => rfl
  | cons a as ih => simp [List.isPrefixOf, ih]

/-- Every string starts with itself. -/
theorem startswith_self (s : String) : startswith s s = true :=
  isPre_refl s.data

/-- A token list positionally matches itself. -/
theorem tokMatch_self : ∀ ts : List String, tokMatch ts ts = true := by
  intro ts
  induction ts with
  | nil => rfl
  | cons t ts' ih => simp [tokMatch, startswith_self, ih]

/-- The `full_matches` list is the filter of the mode's commands by the
full-match predicate. -/
theorem fullMatches_eq (r : CommandRegistry) (mode : Mode) (input : List String) :
    r.fullMatches mode input = (r.byMode mode).filter (isFull input) := by
  simp only [CommandRegistry.fullMatches, CommandRegistry.candidates,
    List.filter_filter]
  rfl

/-- `resolve` succeeds with `c` exactly when the `full_matches` list is
the singleton `[c]`. -/
theorem resolve_ok_iff (r : CommandRegistry) (mode : Mode) (input : List String)
    (c : Command) (h : input ≠ []) :
    r.resolve mode input = Except.ok c ↔ r.fullMatches mode input = [c] := by
  cases input with
  | nil => exact absurd rfl h
  | cons t ts =>
    simp only [CommandRegistry.resolve]
    rcases hfm : r.fullMatches mode (t :: ts) with _ | ⟨m, _ | ⟨m2, rest⟩⟩
    · by_cases hms : r.candidates mode (t :: ts) = [] <;> simp [hms]
    · simp
    · simp

/-- With pairwise-distinct token sequences (the registry invariant
maintained by `register`), a filter equals `[c]` exactly when `c` is the
unique element satisfying the predicate. -/
theorem filter_eq_singleton_iff {l : List Command} {p : Command → Bool}
    {c : Command}
    (hnd : List.Pairwise (fun a b => a.tokens ≠ b.tokens) l) :
    l.filter p = [c] ↔
      (c ∈ l ∧ p c = true ∧ ∀ c' ∈ l, p c' = true → c' = c) := by
  constructor
  · intro hf
    have hc : c ∈ l.filter p := by rw [hf]; simp
    rw [List.mem_filter] at hc
    refine ⟨hc.1, hc.2, ?_⟩
    intro c' hc' hp'
    have hmem : c' ∈ l.filter p := List.mem_filter.mpr ⟨hc', hp'⟩
    rw [hf] at hmem
    simpa using hmem
  · rintro ⟨hmem, hp, huniq⟩
    have hcf : c ∈ l.filter p := List.mem_filter.mpr ⟨hmem, hp⟩
    have hall : ∀ x ∈ l.filter p, x = c := by
      intro x hx
      rw [List.mem_filter] at hx
      exact huniq x hx.1 hx.2
    have hpw : List.Pairwise (fun a b => a.tokens ≠ b.tokens) (l.filter p) :=
      hnd.filter p
    rcases hflt : l.filter p with _ | ⟨x, _ | ⟨y, t⟩⟩
    · rw [hflt] at hcf
      simp at hcf
    · rw [hflt] at hall
      rw [hall x (by simp)]
    · rw [hflt] at hall hpw
      have hx := hall x (by simp)
      have hy := hall y (by simp)
      rw [List.pairwise_cons] at hpw
      have hxy := hpw.1 y (by simp)
      rw [hx, hy] at hxy
      exact absurd rfl hxy

/-- The diagnostics never enumerate more than 10 alternatives. -/
theorem listAlts_length_le (cmds : List Command) : (listAlts cmds).length ≤ 10 := by
  simp only [listAlts, List.length_map, List.length_take]
  omega

/-- With at least two full matches, `resolve` fails with the ambiguity
error enumerating the (capped) full-match token sequences. -/
theorem resolve_ambiguous_of (r : CommandRegistry) (mode : Mode)
    (input : List String) (m1 m2 : Command) (rest : List Command)
    (h : input ≠ []) (hfm : r.fullMatches mode input = m1 :: m2 :: rest) :
    r.resolve mode input =
      Except.error (ResolveError.ambiguousCommand (listAlts (m1 :: m2 :: rest))) := by
  cases input with
  | nil => exact absurd rfl h
  | cons t ts =>
    simp only [CommandRegistry.resolve]
    simp [hfm]

/-- If `resolve` fails with the ambiguity error, the enumerated
alternatives are exactly the joined token sequences of the first at most
10 full matches, in registry order. -/
theorem resolve_ambiguous_alts (r : CommandRegistry) (mode : Mode)
    (input : List String) (alts : List String)
    (h : r.resolve mode input = Except.error (ResolveError.ambiguousCommand alts)) :
    alts = listAlts (r.fullMatches mode input) := by
  cases input with
  | nil => simp [CommandRegistry.resolve] at h
  | cons t ts =>
    simp only [CommandRegistry.resolve] at h
    rcases hfm : r.fullMatches mode (t :: ts) with _ | ⟨m, _ | ⟨m2, rest⟩⟩ <;>
      rw [hfm] at h
    · by_cases hms : r.candidates mode (t :: ts) = [] <;> simp [hms] at h
    · simp at h
    · simp at h
      exact h.symm

/-- If `resolve` fails with the incomplete-command error, the enumerated
alternatives are exactly the joined token sequences of the first at most
10 candidates, in registry order. -/
theorem resolve_incomplete_alts (r : CommandRegistry) (mode : Mode)
    (input : List String) (alts : List String)
    (h : r.resolve mode input = Except.error (ResolveError.incompleteCommand alts)) :
    alts = listAlts (r.candidates mode input) := by
  cases input with
  | nil => simp [CommandRegistry.resolve] at h
  | cons t ts =>
    simp only [CommandRegistry.resolve] at h
    rcases hfm : r.fullMatches mode (t :: ts) with _ | ⟨m, _ | ⟨m2, rest⟩⟩ <;>
      rw [hfm] at h
    · by_cases hms : r.candidates mode (t :: ts) = [] <;> simp [hms] at h
      rw [h]
    · simp at h
    · simp at h

-- Helper lemmas: `register`.

/-- `register` does not touch the command list of any other mode. -/
theorem byMode_register_of_ne (r : CommandRegistry) (c1 : Command) (m : Mode)
    (h : c1.mode ≠ m) : ((r.register c1).1).byMode m = r.byMode m := by
  by_cases hdup : ((r.byMode c1.mode).any fun c => c.tokens == c1.tokens) = true
  · simp [CommandRegistry.register, hdup]
  · have hfst : (r.register c1).1 = r.setMode c1.mode (r.byMode c1.mode ++ [c1]) := by
      unfold CommandRegistry.register
      rw [if_neg hdup]
    rw [hfst]
    rcases hc1 : c1.mode <;> rcases hm : m <;>
      simp_all [CommandRegistry.setMode, CommandRegistry.byMode]

/-- The outcome of `register` depends only on the command list of the
command's own mode. -/
theorem register_snd_congr (r rr : CommandRegistry) (cmd : Command)
    (h : rr.byMode cmd.mode = r.byMode cmd.mode) :
    (rr.register cmd).2 = (r.register cmd).2 := by
  by_cases hdup : ((r.byMode cmd.mode).any fun c => c.tokens == cmd.tokens) = true <;>
    simp [CommandRegistry.register, h, hdup]

-- Claim theorems.

/-- C1: for every mode and non-empty input, under the registry invariant
(pairwise-distinct token sequences per mode), `resolve` returns a command
`c` if and only if `c` is the unique registered command of that mode whose
token count equals the input's and whose tokens each extend the
corresponding input token. -/
theorem c1_resolve_unique_full_match :
    ∀ (r : CommandRegistry) (mode : Mode) (input : List String) (c : Command),
      input ≠ [] →
      List.Pairwise (fun a b => a.tokens ≠ b.tokens) (r.byMode mode) →
      (r.resolve mode input = Except.ok c ↔
        (c ∈ r.byMode mode ∧ isFull input c = true ∧
          ∀ c' ∈ r.byMode mode, isFull input c' = true → c' = c)) := by
  intro r mode input c hne hnd
  rw [resolve_ok_iff r mode input c hne, fullMatches_eq]
  exact filter_eq_singleton_iff hnd

/-- Witness for C1 at the registry holding only `("show", "version")` and
input `["sh", "ver"]`. -/
theorem c1_witness :
    regShowVersion.resolve Mode.USER ["sh", "ver"] = Except.ok cShowVersion ↔
      (cShowVersion ∈ regShowVersion.byMode Mode.USER ∧
        isFull ["sh", "ver"] cShowVersion = true ∧
        ∀ c' ∈ regShowVersion.byMode Mode.USER,
          isFull ["sh", "ver"] c' = true → c' = cShowVersion) :=
  c1_resolve_unique_full_match regShowVersion Mode.USER ["sh", "ver"]
    cShowVersion (by decide) (by decide)

/-- C2 counterexample: `("show",)` is registered, but resolving its exact
token sequence `["show"]` fails with an ambiguity error because
`("showx",)` is also a full match — so exact-token resolution is not
unconditional. -/
theorem c2_counterexample :
    cShow ∈ regShowShowx.byMode cShow.mode ∧
    regShowShowx.resolve cShow.mode cShow.tokens =
      Except.error (ResolveError.ambiguousCommand ["show", "showx"]) ∧
    regShowShowx.resolve cShow.mode cShow.tokens ≠ Except.ok cShow := by
  decide

/-- C2 (amended): resolving a registered command's exact, non-empty token
sequence in its mode returns that command, provided no other registered
command of that mode is also a full match of it. -/
theorem c2_exact_tokens_resolve :
    ∀ (r : CommandRegistry) (c : Command),
      c ∈ r.byMode c.mode → c.tokens ≠ [] →
      List.Pairwise (fun a b => a.tokens ≠ b.tokens) (r.byMode c.mode) →
      (∀ c' ∈ r.byMode c.mode, isFull c.tokens c' = true → c' = c) →
      r.resolve c.mode c.tokens = Except.ok c := by
  intro r c hmem hne hnd huniq
  rw [resolve_ok_iff r c.mode c.tokens c hne, fullMatches_eq]
  refine (filter_eq_singleton_iff hnd).mpr ⟨hmem, ?_, huniq⟩
  simp [isFull, tokMatch_self]

/-- Witness for the amended C2: `("show", "version")` resolves its own
tokens. -/
theorem c2_witness :
    regShowVersion.resolve cShowVersion.mode cShowVersion.tokens =
      Except.ok cShowVersion :=
  c2_exact_tokens_resolve regShowVersion cShowVersion (by decide) (by decide)
    (by decide) (by decide)

/-- C3: with two or more full matches, `resolve` fails with the ambiguity
error enumerating the full-matched token sequences (in registry order,
capped at 10); in particular `["sh"]` against `("show",)` and
`("shutdown",)` yields an ambiguity error listing both. -/
theorem c3_ambiguous :
    (∀ (r : CommandRegistry) (mode : Mode) (input : List String)
        (m1 m2 : Command) (rest : List Command),
        input ≠ [] → r.fullMatches mode input = m1 :: m2 :: rest →
        r.resolve mode input =
          Except.error
            (ResolveError.ambiguousCommand (listAlts (m1 :: m2 :: rest))))
    ∧ regShSh.resolve Mode.USER ["sh"] =
        Except.error (ResolveError.ambiguousCommand ["show", "shutdown"])
    ∧ "show" ∈ (["show", "shutdown"] : List String)
    ∧ "shutdown" ∈ (["show", "shutdown"] : List String) :=
  ⟨fun r mode input m1 m2 rest h hfm =>
      resolve_ambiguous_of r mode input m1 m2 rest h hfm,
    by decide, by decide, by decide⟩

/-- Witness for C3 at `("show",)` / `("shutdown",)` with input `["sh"]`. -/
theorem c3_witness :
    regShSh.resolve Mode.USER ["sh"] =
      Except.error (ResolveError.ambiguousCommand (listAlts [cShow, cShutdown])) :=
  c3_ambiguous.1 regShSh Mode.USER ["sh"] cShow cShutdown [] (by decide)
    (by decide)

/-- C4: with zero full matches, `resolve` fails with the unknown-command
error naming the space-joined input when there is no candidate at all, and
with the incomplete-command error enumerating the candidates otherwise; in
particular, with only `("show", "version")` registered, `["show"]` yields
an incomplete-command error whose message contains `"show version"`. -/
theorem c4_no_full_match :
    (∀ (r : CommandRegistry) (mode : Mode) (input : List String),
        input ≠ [] → r.fullMatches mode input = [] →
        (r.candidates mode input = [] →
          r.resolve mode input =
            Except.error (ResolveError.unknownCommand (joinTokens input))) ∧
        (r.candidates mode input ≠ [] →
          r.resolve mode input =
            Except.error (ResolveError.incompleteCommand
              (listAlts (r.candidates mode input)))))
    ∧ regShowVersion.resolve Mode.USER ["show"] =
        Except.error (ResolveError.incompleteCommand ["show version"])
    ∧ (ResolveError.incompleteCommand ["show version"]).message =
        "incomplete command. did you mean: show version"
    ∧ (ResolveError.unknownCommand (joinTokens ["bogus"])).message =
        "unknown command: \"bogus\"" := by
  refine ⟨?_, by decide, by decide, by decide⟩
  intro r mode input hne hfm
  cases input with
  | nil => exact absurd rfl hne
  | cons t ts =>
    constructor
    · intro hms
      simp only [CommandRegistry.resolve]
      simp [hfm, hms]
    · intro hms
      simp only [CommandRegistry.resolve]
      simp [hfm, hms]

/-- Witness for C4 at `("show", "version")` with input `["show"]`. -/
theorem c4_witness :
    regShowVersion.resolve Mode.USER ["show"] =
      Except.error (ResolveError.incompleteCommand
        (listAlts (regShowVersion.candidates Mode.USER ["show"]))) :=
  (c4_no_full_match.1 regShowVersion Mode.USER ["show"] (by decide)
    (by decide)).2 (by decide)

/-- C5 counterexample: with `("sb",)` registered before `("sa",)`,
resolving `["s"]` enumerates the alternatives as `["sb", "sa"]` —
registration order, which is not lexicographically sorted (`["sb"]` does
not precede `["sa"]`). -/
theorem c5_counterexample :
    regBA.resolve Mode.USER ["s"] =
      Except.error (ResolveError.ambiguousCommand ["sb", "sa"]) ∧
    lexLE ["sb"] ["sa"] = false := by
  decide

/-- C5 (amended): ambiguous and incomplete diagnostics enumerate the
joined token sequences of the first at most 10 matching commands in
registration order (the match lists are subsequences of the mode's
registration-ordered list), with no ellipsis marker; at most 10
alternatives are listed.  The help listing ("show commands") does present
the current mode's commands sorted by token sequence. -/
theorem c5_diagnostic_order :
    (∀ (r : CommandRegistry) (mode : Mode) (input : List String)
        (alts : List String),
        r.resolve mode input =
          Except.error (ResolveError.ambiguousCommand alts) →
        alts = listAlts (r.fullMatches mode input) ∧ alts.length ≤ 10)
    ∧ (∀ (r : CommandRegistry) (mode : Mode) (input : List String)
        (alts : List String),
        r.resolve mode input =
          Except.error (ResolveError.incompleteCommand alts) →
        alts = listAlts (r.candidates mode input) ∧ alts.length ≤ 10)
    ∧ (∀ (r : CommandRegistry) (mode : Mode) (input : List String),
        (r.fullMatches mode input).Sublist (r.byMode mode))
    ∧ (∀ shell : Shell,
        List.Pairwise (fun a b : Command => lexLE a.tokens b.tokens = true)
          (helpList shell)) := by
  refine ⟨?_, ?_, ?_, helpList_pairwise⟩
  · intro r mode input alts h
    have halts := resolve_ambiguous_alts r mode input alts h
    refine ⟨halts, ?_⟩
    rw [halts]
    exact listAlts_length_le _
  · intro r mode input alts h
    have halts := resolve_incomplete_alts r mode input alts h
    refine ⟨halts, ?_⟩
    rw [halts]
    exact listAlts_length_le _
  · intro r mode input
    rw [fullMatches_eq]
    exact List.filter_sublist _

/-- Witness for the amended C5 at the `("sb",)` / `("sa",)` registry. -/
theorem c5_witness :
    (["sb", "sa"] : List String) =
      listAlts (regBA.fullMatches Mode.USER ["s"]) ∧
    (["sb", "sa"] : List String).length ≤ 10 :=
  c5_diagnostic_order.1 regBA Mode.USER ["s"] ["sb", "sa"] (by decide)

/-- C6: resolving the empty token list always fails with the empty-input
error, whatever the registry holds. -/
theorem c6_empty_input :
    ∀ (r : CommandRegistry) (mode : Mode),
      r.resolve mode [] = Except.error ResolveError.emptyInput :=
  fun _ _ => rfl

/-- C7: `register` fails exactly when a command with identical token
sequence is already registered in the command's own mode; registering the
same token sequence in the other mode is unaffected (both registrations
succeed independently). -/
theorem c7_register_duplicate :
    (∀ (r : CommandRegistry) (cmd : Command),
        ((r.register cmd).2).isSome = true ↔
          ∃ c ∈ r.byMode cmd.mode, c.tokens = cmd.tokens)
    ∧ (∀ (r : CommandRegistry) (c1 c2 : Command), c1.mode ≠ c2.mode →
        (r.register c2).2 = none → (((r.register c1).1).register c2).2 = none) := by
  constructor
  · intro r cmd
    have hsnd : ((r.register cmd).2).isSome =
        ((r.byMode cmd.mode).any fun c => c.tokens == cmd.tokens) := by
      by_cases hdup :
          ((r.byMode cmd.mode).any fun c => c.tokens == cmd.tokens) = true <;>
        simp [CommandRegistry.register, hdup]
    rw [hsnd, List.any_eq_true]
    simp [beq_iff_eq]
  · intro r c1 c2 hne h2
    have hbm : ((r.register c1).1).byMode c2.mode = r.byMode c2.mode :=
      byMode_register_of_ne r c1 c2.mode hne
    rw [register_snd_congr r ((r.register c1).1) c2 hbm]
    exact h2

/-- Witness for C7: the duplicate test on the empty registry, and the
`("exit",)` command registered in user mode then admin mode, the second
registration succeeding. -/
theorem c7_witness :
    (((emptyReg.register cExitUser).2).isSome = true ↔
      ∃ c ∈ emptyReg.byMode cExitUser.mode, c.tokens = cExitUser.tokens) ∧
    (((emptyReg.register cExitUser).1).register cExitAdmin).2 = none :=
  ⟨c7_register_duplicate.1 emptyReg cExitUser,
    c7_register_duplicate.2 emptyReg cExitUser cExitAdmin (by decide)
      (by decide)⟩

/-- C8: the code accepts `tokens` arguments that break the declared
invariant.  A whitespace-only string passes the emptiness check and is
then split to the empty tuple, and a tuple holding an empty string is
accepted unchanged — so a `Command` with an empty token sequence (and one
with an empty-string token) can be constructed. -/
theorem c8_empty_tokens_constructed :
    (mkCommand (TokensArg.ofString " ") Mode.USER 0 "d" =
      Except.ok { tokens := [], mode := Mode.USER, handler := 0,
                  short_description := "d" }) ∧
    (mkCommand (TokensArg.ofTuple [""]) Mode.USER 0 "d" =
      Except.ok { tokens := [""], mode := Mode.USER, handler := 0,
                  short_description := "d" }) ∧
    (mkCommand (TokensArg.ofTuple []) Mode.USER 0 "d" =
      Except.error "This command must have at least one token") ∧
    (mkCommand (TokensArg.ofString "") Mode.USER 0 "d" =
      Except.error "This command must have at least one token") := by
  decide

/-- C9: from user mode, the privileged-entry handler switches the shell
to admin mode returning 0, and the privileged-exit handler then returns
it to user mode returning 0, with the registry unchanged by the round
trip. -/
theorem c9_mode_round_trip :
    ∀ shell : Shell, shell.mode = Mode.USER →
      (h_configure shell).2 = 0 ∧
      (h_configure shell).1.mode = Mode.ADMIN ∧
      (h_configure shell).1.registry = shell.registry ∧
      h_exit (h_configure shell).1 =
        Except.ok ({ mode := Mode.USER, registry := shell.registry }, 0) :=
  fun _ _ => ⟨rfl, rfl, rfl, rfl⟩

/-- Witness for C9 at a concrete user-mode shell. -/
theorem c9_witness :
    (h_configure { mode := Mode.USER, registry := regShSh }).2 = 0 ∧
    (h_configure { mode := Mode.USER, registry := regShSh }).1.mode =
      Mode.ADMIN ∧
    (h_configure { mode := Mode.USER, registry := regShSh }).1.registry =
      regShSh ∧
    h_exit (h_configure { mode := Mode.USER, registry := regShSh }).1 =
      Except.ok ({ mode := Mode.USER, registry := regShSh }, 0) :=
  c9_mode_round_trip { mode := Mode.USER, registry := regShSh } rfl

/-- C10: when `register` rejects a duplicate, the registry is exactly as
before the call: the raise happens before the append, so no mode's
command list is modified. -/
theorem c10_register_fail_preserves :
    ∀ (r : CommandRegistry) (cmd : Command) (e : String),
      (r.register cmd).2 = some e →
      (r.register cmd).1 = r ∧
        ∀ m : Mode, ((r.register cmd).1).byMode m = r.byMode m := by
  intro r cmd e h
  by_cases hdup : ((r.byMode cmd.mode).any fun c => c.tokens == cmd.tokens) = true
  · constructor
    · simp [CommandRegistry.register, hdup]
    · intro m
      simp [CommandRegistry.register, hdup]
  · simp [CommandRegistry.register, hdup] at h

/-- Witness for C10: re-registering `("show", "version")` fails and
leaves the registry intact. -/
theorem c10_witness :
    (regShowVersion.register cShowVersion).1 = regShowVersion ∧
    ∀ m : Mode,
      ((regShowVersion.register cShowVersion).1).byMode m =
        regShowVersion.byMode m :=
  c10_register_fail_preserves regShowVersion cShowVersion
    "duplicate command in mode Mode.USER: show version" (by decide)
